import Mathlib

/-!
Shallow embedding of the signing-authorization core of a Ledger Tezos
application (sources: src/baking_auth.c, src/apdu_sign.c, src/main.c).

Machine integers are modelled as Nat (bytes are Nat values, masks are taken
with explicit bitwise operators), fallible code returns Option or an explicit
error constructor, and the persistent NVRAM record is an explicit state value
threaded through the functions.  External collaborators that are not part of
the provided sources (the blake2b primitive, the magic-byte classifier, the
structured operation parser, the BIP32 path reader) are modelled from the
specification, each marked as such in its doc comment.
-/

/-- Error taxonomy of the application (apdu.h is not among the sources; the
constructors follow the spec error taxonomy and the distinct EXC_ names used
in the sources: EXC_PARSE_ERROR, EXC_WRONG_LENGTH_FOR_INS, EXC_WRONG_PARAM,
EXC_SECURITY, EXC_MEMORY_ERROR). -/
inductive Err
  | parseError
  | wrongLength
  | wrongParam
  | securityError
  | memoryError
deriving DecidableEq, Repr

/-- The persistent NVRAM record N_data (fields as used throughout
baking_auth.c: highest_level, had_endorsement, curve, bip32_path,
path_length).  The path is the list of its first path_length indices. -/
structure nvram_data where
  highest_level : Nat
  had_endorsement : Bool
  curve : Nat
  bip32_path : List Nat
  path_length : Nat
deriving DecidableEq, Repr

/-- Maximum BIP32 path depth.  Modelled from the spec: the constant
MAX_BIP32_PATH lives in a header that is not among the sources; the spec only
requires a bounded depth, and no theorem below depends on the exact value. -/
def MAX_BIP32_PATH : Nat := 10

/-- baking_auth.c:15-17: a level is valid when its top two bits
(mask 0xC0000000) are zero. -/
def is_valid_level (lvl : Nat) : Bool :=
  lvl &&& 0xC0000000 == 0

/-- baking_auth.c:19-27: copy the whole record, overwrite highest_level and
had_endorsement, and write it back as one record; invalid levels are ignored. -/
def write_highest_level (nv : nvram_data) (lvl : Nat) (is_endorsement : Bool) :
    nvram_data :=
  if !(is_valid_level lvl) then nv
  else { nv with highest_level := lvl, had_endorsement := is_endorsement }

/-- baking_auth.c:29-41.  The C function fills a stack-allocated record
new_baking_details and writes it whole; it assigns highest_level, curve,
bip32_path and path_length but never assigns had_endorsement, so the
persisted flag is whatever the stack held.  That indeterminate value is made
explicit as the argument stack_had_endorsement.  The function body contains
no THROW, hence the result is always Except.ok. -/
def authorize_baking (nv : nvram_data) (curve : Nat)
    (bip32_path : Option (List Nat)) (path_length : Nat)
    (stack_had_endorsement : Bool) : Except Err nvram_data :=
  if bip32_path = none ∨ MAX_BIP32_PATH < path_length ∨ path_length = 0 then
    Except.ok nv
  else
    Except.ok
      { highest_level := nv.highest_level
        had_endorsement := stack_had_endorsement
        curve := curve
        bip32_path := (bip32_path.getD []).take path_length
        path_length := path_length }

/-- baking_auth.c:43-50: reject invalid levels, accept levels above the mark,
and otherwise accept exactly the endorsements arriving while no endorsement
has been recorded.  (Note that the final branch runs for every level that is
less than or equal to the recorded one, not only for ties.) -/
def is_level_authorized (nv : nvram_data) (level : Nat) (is_endorsement : Bool) :
    Bool :=
  if !(is_valid_level level) then false
  else if nv.highest_level < level then true
  else is_endorsement && !nv.had_endorsement

/-- baking_auth.c:52-58: the session path/curve matches the authorized key
(memcmp over the first path_length indices). -/
def is_path_authorized (nv : nvram_data) (curve : Nat)
    (bip32_path : Option (List Nat)) (path_length : Nat) : Bool :=
  decide (bip32_path ≠ none ∧ path_length ≠ 0 ∧
    path_length = nv.path_length ∧ curve = nv.curve ∧
    (bip32_path.getD []).take path_length = nv.bip32_path.take path_length)

/-- Payload discriminators.  Modelled from the spec: get_magic_byte and the
MAGIC_BYTE_ constants live in protocol.h, which is not among the sources;
only the distinctness of the six kinds matters to the claims. -/
inductive Magic
  | block
  | bakingOp
  | unsafeOp
  | unsafeOp2
  | unsafeOp3
  | invalid
deriving DecidableEq, Repr

/-- Modelled from the spec: the discriminator is the leading byte of the
payload; an empty payload is invalid.  The concrete byte values follow the
Tezos wire convention but no claim depends on them. -/
def get_magic_byte (data : List Nat) : Magic :=
  match data with
  | [] => Magic.invalid
  | b :: _ =>
    if b = 1 then Magic.block
    else if b = 2 then Magic.bakingOp
    else if b = 3 then Magic.unsafeOp
    else if b = 4 then Magic.unsafeOp2
    else if b = 5 then Magic.unsafeOp3
    else Magic.invalid

/-- Read a 4-byte big-endian word (READ_UNALIGNED_BIG_ENDIAN on uint32_t). -/
def read_be32 (l : List Nat) : Nat :=
  match l with
  | a :: b :: c :: d :: _ =>
    (a % 256) * 16777216 + (b % 256) * 65536 + (c % 256) * 256 + d % 256
  | _ => 0

/-- Result of parsing a block or endorsement payload (baking_auth.h). -/
structure parsed_baking_data where
  is_endorsement : Bool
  level : Nat
deriving DecidableEq, Repr

/-- baking_auth.c:167-187.  The packed endorsement struct is
magic(1) + chain_id(4) + branch(32) + tag(1) + level(4) = 42 bytes with the
level at offset 38; the packed block struct is
magic(1) + chain_id(4) + level(4) + proto(1) = 10 bytes with the level at
offset 5 (a block payload may be longer). -/
def parse_baking_data (data : List Nat) : Option parsed_baking_data :=
  match get_magic_byte data with
  | Magic.bakingOp =>
    if data.length = 42 then some ⟨true, read_be32 (data.drop 38)⟩ else none
  | Magic.block =>
    if 10 ≤ data.length then some ⟨false, read_be32 (data.drop 5)⟩ else none
  | _ => none

/-- baking_auth.c:70-77: parse the payload and, when it is a block or an
endorsement, persist its level; otherwise (a delegation) change nothing. -/
def update_high_water_mark (nv : nvram_data) (data : List Nat) : nvram_data :=
  match parse_baking_data data with
  | none => nv
  | some b => write_highest_level nv b.level b.is_endorsement

/-- The high-water-mark rule exactly as claim C1 words it (refinement
reference: this definition transcribes the claim, not the source). -/
def level_guard_spec (highest : Nat) (had_e : Bool) (lvl : Nat)
    (is_e : Bool) : Prop :=
  highest < lvl ∨ (lvl = highest ∧ is_e = true ∧ had_e = false)

/-- A concrete Nat with bits 30 and 31 clear is below 2 to the 30. -/
def nv_hwm100 : nvram_data :=
  { highest_level := 100, had_endorsement := false, curve := 0,
    bip32_path := [44], path_length := 1 }

/-- C1: with the mark at level 100 and no endorsement recorded, the code
permits an endorsement at level 50 — a level strictly below the mark — while
the claimed rule (strictly greater, or equal with a fresh endorsement)
rejects it.  The branch of is_level_authorized that the code comment reserves
for tied levels also runs for lower levels. -/
theorem is_level_authorized_below_mark_permitted :
    is_level_authorized nv_hwm100 50 true = true ∧
    ¬ level_guard_spec 100 false 50 true := by
  constructor
  · decide
  · intro h
    rcases h with h | ⟨h, _⟩ <;> omega

/-- Bits 30 and 31 are exactly what the mask 0xC0000000 sees. -/
theorem land_mask_c0000000_eq_zero (x : Nat) :
    x &&& 0xC0000000 = 0 ↔
      (x.testBit 30 = false ∧ x.testBit 31 = false) := by
  have hm : (0xC0000000 : Nat) = 2 ^ 30 ||| 2 ^ 31 := by decide
  constructor
  · intro h
    constructor
    · have h30 := congrArg (fun n => Nat.testBit n 30) h
      simp only [Nat.testBit_and, Nat.zero_testBit] at h30
      have hmask : Nat.testBit 0xC0000000 30 = true := by decide
      rw [hmask, Bool.and_true] at h30
      exact h30
    · have h31 := congrArg (fun n => Nat.testBit n 31) h
      simp only [Nat.testBit_and, Nat.zero_testBit] at h31
      have hmask : Nat.testBit 0xC0000000 31 = true := by decide
      rw [hmask, Bool.and_true] at h31
      exact h31
  · intro ⟨h30, h31⟩
    apply Nat.eq_of_testBit_eq
    intro i
    simp only [Nat.testBit_and, Nat.zero_testBit, hm, Nat.testBit_lor]
    by_cases hi30 : i = 30
    · subst hi30
      rw [h30]
      simp
    · by_cases hi31 : i = 31
      · subst hi31
        rw [h31]
        simp [Nat.testBit_two_pow_of_ne]
      · rw [Nat.testBit_two_pow_of_ne (fun h => hi30 h.symm),
          Nat.testBit_two_pow_of_ne (fun h => hi31 h.symm)]
        simp

/-- C7: for every 32-bit level, the level is judged malformed exactly when
bit 30 or bit 31 is set, and a malformed level is rejected by
is_level_authorized for every persistent state and endorsement flag —
independently of the high-water-mark comparison. -/
theorem is_valid_level_top_two_bits (lvl : Nat) (h : lvl < 4294967296) :
    (is_valid_level lvl = false ↔
      (lvl.testBit 30 = true ∨ lvl.testBit 31 = true)) ∧
    (∀ nv : nvram_data, ∀ e : Bool,
      is_valid_level lvl = false → is_level_authorized nv lvl e = false) := by
  constructor
  · unfold is_valid_level
    rw [beq_eq_false_iff_ne, Ne, land_mask_c0000000_eq_zero]
    constructor
    · intro hne
      rcases Bool.eq_false_or_eq_true (lvl.testBit 30) with h30 | h30
      · exact Or.inl h30
      · rcases Bool.eq_false_or_eq_true (lvl.testBit 31) with h31 | h31
        · exact Or.inr h31
        · exact absurd ⟨h30, h31⟩ hne
    · intro hd hc
      rcases hd with h30 | h31
      · rw [hc.1] at h30
        exact Bool.false_ne_true h30
      · rw [hc.2] at h31
        exact Bool.false_ne_true h31
  · intro nv e hv
    unfold is_level_authorized
    rw [hv]
    rfl

/-- C7 witness: the level 0xC0000000 is below 2 to the 32, has bit 31 set,
is judged invalid, and is rejected by the guard at a state whose mark it
would otherwise exceed. -/
theorem is_valid_level_top_two_bits_witness :
    is_valid_level 3221225472 = false ∧
    is_level_authorized nv_hwm100 3221225472 true = false :=
  ⟨by decide,
   (is_valid_level_top_two_bits 3221225472 (by decide)).2 nv_hwm100 true
     (by decide)⟩

/-- C6: the persisted record after a valid authorize call.  highest_level is
preserved and curve/path are replaced, but had_endorsement takes the
uninitialized stack value (here false) instead of the prior value (true):
baking_auth.c:34-38 never assigns new_baking_details.had_endorsement.  The
call signals no error. -/
theorem authorize_baking_clobbers_had_endorsement :
    nv_hwm100.had_endorsement = false ∧
    authorize_baking
        { nv_hwm100 with had_endorsement := true } 1 (some [44, 1729]) 2 false =
      Except.ok
        { highest_level := 100, had_endorsement := false, curve := 1,
          bip32_path := [44, 1729], path_length := 2 } := by
  constructor
  · rfl
  · rfl

/-- C10: an authorize call with a NULL path, a zero-length path, or a path
beyond the maximum depth returns with the persistent record untouched and
without signaling any error (baking_auth.c:30-32 is a bare return before any
nvm_write). -/
theorem authorize_baking_rejects_bad_path (nv : nvram_data) (curve : Nat)
    (p : Option (List Nat)) (len : Nat) (junk : Bool)
    (h : p = none ∨ len = 0 ∨ MAX_BIP32_PATH < len) :
    authorize_baking nv curve p len junk = Except.ok nv := by
  unfold authorize_baking
  rcases h with h | h | h
  · rw [if_pos (Or.inl h)]
  · rw [if_pos (Or.inr (Or.inr h))]
  · rw [if_pos (Or.inr (Or.inl h))]

/-- C10 witness: a zero-length path leaves the record unchanged. -/
theorem authorize_baking_rejects_bad_path_witness :
    authorize_baking nv_hwm100 3 (some [44]) 0 true = Except.ok nv_hwm100 :=
  authorize_baking_rejects_bad_path nv_hwm100 3 (some [44]) 0 true
    (Or.inr (Or.inl rfl))

/-- The wrapper state of the incremental hasher (blake2b_hash_state_t): the
lazily-set flag from apdu_sign.c plus the state of the external b2b
primitive, modelled from the spec as the byte stream absorbed so far. -/
structure blake2b_hash_state where
  is_inited : Bool
  absorbed : List Nat
deriving DecidableEq, Repr

/-- Modelled from the spec: b2b_init resets the primitive; the freshly
initialized primitive has absorbed nothing. -/
def b2b_init : blake2b_hash_state :=
  { is_inited := true, absorbed := [] }

/-- Modelled from the spec: b2b_update absorbs a chunk of the byte stream. -/
def b2b_update (st : blake2b_hash_state) (chunk : List Nat) :
    blake2b_hash_state :=
  { st with absorbed := st.absorbed ++ chunk }

/-- Modelled from the spec: b2b_final extracts the 32-byte digest, a
deterministic function of the absorbed stream.  Only equality of digests
matters to the claims, so the absorbed stream itself stands for the digest:
two runs agree on the real digest exactly when they agree on this value. -/
def b2b_final (st : blake2b_hash_state) : List Nat :=
  st.absorbed

/-- apdu_sign.c:25-31. -/
def conditional_init_hash_state (st : blake2b_hash_state) :
    blake2b_hash_state :=
  if st.is_inited then st else b2b_init

/-- apdu_sign.c:33-52: while more than one 128-byte block is pending, absorb
one block; the un-absorbed remainder is moved to the front of the buffer.
Returns the new buffer contents (with its length) and hash state. -/
def blake2b_incremental_hash (buf : List Nat) (st : blake2b_hash_state) :
    List Nat × blake2b_hash_state :=
  if h : 128 < buf.length then
    blake2b_incremental_hash (buf.drop 128)
      (b2b_update (conditional_init_hash_state st) (buf.take 128))
  else
    (buf, st)
termination_by buf.length
decreasing_by
  simp only [List.length_drop]
  omega

/-- apdu_sign.c:54-69: absorb whatever is still pending and extract the
digest. -/
def blake2b_finish_hash (buf : List Nat) (st : blake2b_hash_state) :
    List Nat :=
  let st0 := conditional_init_hash_state st
  let r := blake2b_incremental_hash buf st0
  let st2 := b2b_update r.2 r.1
  b2b_final st2

/-- The per-packet hashing drive of handle_apdu (apdu_sign.c:576-600): on
each packet the previously accumulated buffer is hashed incrementally and
then the new packet bytes are appended; on the last packet the buffer is
hashed once more and finished. -/
def hash_packets (ps : List (List Nat)) : List Nat :=
  let f := fun (acc : List Nat × blake2b_hash_state) (p : List Nat) =>
    let r := blake2b_incremental_hash acc.1 acc.2
    (r.1 ++ p, r.2)
  let r := ps.foldl f ([], { is_inited := false, absorbed := [] })
  let r2 := blake2b_incremental_hash r.1 r.2
  blake2b_finish_hash r2.1 r2.2

/-- States reachable by the hasher: while the primitive is uninitialized it
has absorbed nothing. -/
def hs_inv (st : blake2b_hash_state) : Prop :=
  st.is_inited = false → st.absorbed = []

theorem conditional_init_absorbed (st : blake2b_hash_state) (h : hs_inv st) :
    (conditional_init_hash_state st).absorbed = st.absorbed ∧
    (conditional_init_hash_state st).is_inited = true := by
  unfold conditional_init_hash_state
  rcases Bool.eq_false_or_eq_true st.is_inited with hb | hb
  · rw [hb]
    exact ⟨rfl, hb⟩
  · rw [hb]
    exact ⟨(h hb).symm, rfl⟩

theorem blake2b_incremental_hash_absorbed :
    ∀ (n : Nat) (buf : List Nat) (st : blake2b_hash_state),
      buf.length ≤ n → hs_inv st →
      (blake2b_incremental_hash buf st).2.absorbed ++
          (blake2b_incremental_hash buf st).1 = st.absorbed ++ buf ∧
      hs_inv (blake2b_incremental_hash buf st).2 := by
  intro n
  induction n with
  | zero =>
    intro buf st hle hinv
    rw [blake2b_incremental_hash.eq_def]
    have hnot : ¬ 128 < buf.length := by omega
    rw [dif_neg hnot]
    exact ⟨rfl, hinv⟩
  | succ n ih =>
    intro buf st hle hinv
    rw [blake2b_incremental_hash.eq_def]
    by_cases h : 128 < buf.length
    · rw [dif_pos h]
      have hci := conditional_init_absorbed st hinv
      have hinv2 : hs_inv (b2b_update (conditional_init_hash_state st)
          (buf.take 128)) := by
        intro hf
        simp only [b2b_update] at hf
        rw [hci.2] at hf
        exact absurd hf (by simp)
      have hlen : (buf.drop 128).length ≤ n := by
        rw [List.length_drop]
        omega
      have hrec := ih (buf.drop 128)
        (b2b_update (conditional_init_hash_state st) (buf.take 128))
        hlen hinv2
      refine ⟨?_, hrec.2⟩
      rw [hrec.1]
      simp only [b2b_update]
      rw [hci.1, List.append_assoc, List.take_append_drop]
    · rw [dif_neg h]
      exact ⟨rfl, hinv⟩

theorem blake2b_finish_hash_absorbed (buf : List Nat)
    (st : blake2b_hash_state) (h : hs_inv st) :
    blake2b_finish_hash buf st = st.absorbed ++ buf := by
  unfold blake2b_finish_hash
  have hci := conditional_init_absorbed st h
  have hinv0 : hs_inv (conditional_init_hash_state st) := by
    intro hf
    rw [hci.2] at hf
    exact absurd hf (by simp)
  have hr := blake2b_incremental_hash_absorbed buf.length buf
    (conditional_init_hash_state st) (Nat.le_refl _) hinv0
  simp only [b2b_update, b2b_final]
  rw [hr.1, hci.1]

/-- C5 chunk-invariance, key step: after driving the hasher over any packet
sequence, the absorbed stream plus the pending buffer is exactly the
concatenation of all packets. -/
theorem hash_packets_fold_absorbed (ps : List (List Nat)) :
    ∀ (acc : List Nat × blake2b_hash_state), hs_inv acc.2 →
      (ps.foldl (fun (acc : List Nat × blake2b_hash_state) (p : List Nat) =>
          let r := blake2b_incremental_hash acc.1 acc.2
          (r.1 ++ p, r.2)) acc).2.absorbed ++
        (ps.foldl (fun (acc : List Nat × blake2b_hash_state) (p : List Nat) =>
          let r := blake2b_incremental_hash acc.1 acc.2
          (r.1 ++ p, r.2)) acc).1 =
        acc.2.absorbed ++ acc.1 ++ ps.flatten ∧
      hs_inv (ps.foldl (fun (acc : List Nat × blake2b_hash_state)
          (p : List Nat) =>
          let r := blake2b_incremental_hash acc.1 acc.2
          (r.1 ++ p, r.2)) acc).2 := by
  induction ps with
  | nil =>
    intro acc hinv
    refine ⟨by simp, hinv⟩
  | cons p ps ih =>
    intro acc hinv
    simp only [List.foldl_cons, List.flatten_cons]
    have hr := blake2b_incremental_hash_absorbed acc.1.length acc.1 acc.2
      (Nat.le_refl _) hinv
    have := ih ((blake2b_incremental_hash acc.1 acc.2).1 ++ p,
      (blake2b_incremental_hash acc.1 acc.2).2) hr.2
    refine ⟨?_, this.2⟩
    rw [this.1]
    simp only
    rw [← List.append_assoc, hr.1]
    simp [List.append_assoc]

/-- C5: chunk-invariance of the incremental hasher.  For every byte stream
and every way of splitting it into packets, driving
blake2b_incremental_hash at each packet boundary and finishing with
blake2b_finish_hash yields the same digest as delivering the whole stream as
one packet. -/
theorem hash_packets_chunk_invariant (ps : List (List Nat)) :
    hash_packets ps = hash_packets [ps.flatten] := by
  have key : ∀ qs : List (List Nat), hash_packets qs = qs.flatten := by
    intro qs
    unfold hash_packets
    have h0 : hs_inv ({ is_inited := false, absorbed := [] } :
        blake2b_hash_state) := fun _ => rfl
    have hf := hash_packets_fold_absorbed qs ([],
      { is_inited := false, absorbed := [] }) h0
    have hr2 := blake2b_incremental_hash_absorbed _
      (qs.foldl (fun (acc : List Nat × blake2b_hash_state) (p : List Nat) =>
        let r := blake2b_incremental_hash acc.1 acc.2
        (r.1 ++ p, r.2)) ([], { is_inited := false, absorbed := [] })).1
      (qs.foldl (fun (acc : List Nat × blake2b_hash_state) (p : List Nat) =>
        let r := blake2b_incremental_hash acc.1 acc.2
        (r.1 ++ p, r.2)) ([], { is_inited := false, absorbed := [] })).2
      (Nat.le_refl _) hf.2
    rw [blake2b_finish_hash_absorbed _ _ hr2.2, hr2.1]
    simpa using hf.1
  rw [key ps, key [ps.flatten]]
  simp

/-- One observation point in the block/endorsement signing flow: whether the
guard has passed, the persistent record at that point, and whether the
signature has been produced yet. -/
structure sig_flow_state where
  validated : Bool
  nvram : nvram_data
  signature_produced : Bool
deriving DecidableEq, Repr

/-- The states traversed by perform_signature (main.c:123-185) for a
block/endorsement payload: entry, after the update_high_water_mark call on
line 128, and after the curve-specific sign call (lines 148/162).  The
baking build of apdu_sign.c orders the same two effects identically
(write_high_water_mark at line 616 before sign at line 634). -/
def perform_signature_trace (nv : nvram_data) (data : List Nat) :
    List sig_flow_state :=
  [ { validated := true, nvram := nv, signature_produced := false },
    { validated := true, nvram := update_high_water_mark nv data,
      signature_produced := false },
    { validated := true, nvram := update_high_water_mark nv data,
      signature_produced := true } ]

/-- The full baking signing flow (main.c:417-428): the authorization guard
runs first, and only a validated session enters perform_signature. -/
def baking_sign_trace (nv : nvram_data) (data : List Nat) :
    List sig_flow_state :=
  { validated := false, nvram := nv, signature_produced := false } ::
    perform_signature_trace nv data

/-- Claim C2 as worded, as a predicate on the flow (refinement reference:
this transcribes the claim, not the source): the mark is persisted only
after the signature has been produced, i.e. every flow state whose record
differs from the initial one already carries a produced signature. -/
def mark_persisted_only_after_sign (nv : nvram_data) (data : List Nat) :
    Prop :=
  ∀ s ∈ baking_sign_trace nv data,
    s.nvram ≠ nv → s.signature_produced = true

/-- A concrete endorsement payload at level 101: magic byte 2, a 4-byte
chain id, a 32-byte branch, a tag byte, and the big-endian level. -/
def endorsement_101 : List Nat :=
  2 :: (List.replicate 37 0 ++ [0, 0, 0, 101])

/-- C2 counterexample: starting from the mark at level 100, signing the
level-101 endorsement traverses a state in which the new mark is already
persisted while no signature has been produced yet — the code persists
before signing, so the claimed only-after-signing order is false. -/
theorem mark_persisted_before_sign_counterexample :
    ¬ mark_persisted_only_after_sign nv_hwm100 endorsement_101 := by
  intro h
  have hmem :
      (⟨true, update_high_water_mark nv_hwm100 endorsement_101, false⟩ :
        sig_flow_state) ∈ baking_sign_trace nv_hwm100 endorsement_101 := by
    simp [baking_sign_trace, perform_signature_trace]
  have := h _ hmem (by decide)
  exact Bool.false_ne_true this

/-- C2 amended: the flow order is validation, then persistence, then
signing.  Every state that has produced a signature already carries the
persisted new mark, and every state whose record changed has passed
validation; a crash between persistence and signing can therefore advance
the mark past an unsigned level, but a signature is never produced for a
level the mark has not already recorded. -/
theorem mark_persisted_before_sign (nv : nvram_data) (data : List Nat) :
    baking_sign_trace nv data =
      [ { validated := false, nvram := nv, signature_produced := false },
        { validated := true, nvram := nv, signature_produced := false },
        { validated := true, nvram := update_high_water_mark nv data,
          signature_produced := false },
        { validated := true, nvram := update_high_water_mark nv data,
          signature_produced := true } ] ∧
    (∀ s ∈ baking_sign_trace nv data, s.signature_produced = true →
      s.nvram = update_high_water_mark nv data ∧ s.validated = true) ∧
    (∀ s ∈ baking_sign_trace nv data, s.nvram ≠ nv → s.validated = true) := by
  refine ⟨rfl, ?_, ?_⟩
  · intro s hs hsig
    simp only [baking_sign_trace, perform_signature_trace, List.mem_cons,
      List.mem_singleton] at hs
    rcases hs with h | h | h | h | h
    · rw [h] at hsig
      exact absurd hsig (by simp)
    · rw [h] at hsig
      exact absurd hsig (by simp)
    · rw [h] at hsig
      exact absurd hsig (by simp)
    · rw [h]
      exact ⟨rfl, rfl⟩
    · exact absurd h (by simp)
  · intro s hs hnv
    simp only [baking_sign_trace, perform_signature_trace, List.mem_cons,
      List.mem_singleton] at hs
    rcases hs with h | h | h | h | h
    · rw [h] at hnv
      exact absurd rfl hnv
    · rw [h] at hnv
      exact absurd rfl hnv
    · rw [h]
    · rw [h]
    · exact absurd h (by simp)

/-- C2 amended, witness: at the concrete level-101 endorsement the signed
final state carries the already-persisted mark. -/
theorem mark_persisted_before_sign_witness :
    (⟨true, update_high_water_mark nv_hwm100 endorsement_101, true⟩ :
        sig_flow_state).nvram =
      update_high_water_mark nv_hwm100 endorsement_101 ∧
    update_high_water_mark nv_hwm100 endorsement_101 ≠ nv_hwm100 :=
  ⟨((mark_persisted_before_sign nv_hwm100 endorsement_101).2.1 _
      (by simp [baking_sign_trace, perform_signature_trace]) rfl).1,
   by decide⟩

/-- A derivation path together with its curve (bip32_path_with_curve_t). -/
structure bip32_path_with_curve where
  derivation_type : Nat
  path : List Nat
deriving DecidableEq, Repr

/-- memcmp-style equality of two key records (keys.h helper used at
apdu_sign.c:159). -/
def bip32_path_with_curve_eq (a b : bip32_path_with_curve) : Bool :=
  decide (a = b)

/-- The authorized baking key stored in N_data, as a key record. -/
def baking_key (nv : nvram_data) : bip32_path_with_curve :=
  { derivation_type := nv.curve, path := nv.bip32_path.take nv.path_length }

/-- The structured parse result consumed by baking_sign_complete: the parsed
source and destination contracts and the signing identity the parser derives
from the session key, each reduced to an abstract identity value (COMPARE on
parsed_contract is memcmp, i.e. equality of these values). -/
structure parsed_operation_group where
  source : Nat
  destination : Nat
  signing : Nat
deriving DecidableEq, Repr

/-- The session state consulted by the signing-completion and packet-handling
code (the global G of apdu_sign.c): session key, packet counter, pending
message buffer, incremental hash state, magic byte, structured parse result
with its validity flag, parsed baking data, the wallet-only hash_only flag,
and the final hash. -/
structure sign_globals where
  key : bip32_path_with_curve
  packet_index : Nat
  message_data : List Nat
  hash_state : blake2b_hash_state
  magic_byte : Magic
  maybe_ops_valid : Bool
  maybe_ops : parsed_operation_group
  parsed_baking : parsed_baking_data
  hash_only : Bool
  final_hash : List Nat
deriving DecidableEq, Repr

/-- apdu_sign.c:73-75: memset of G to zero. -/
def clear_data : sign_globals :=
  { key := { derivation_type := 0, path := [] },
    packet_index := 0,
    message_data := [],
    hash_state := { is_inited := false, absorbed := [] },
    magic_byte := Magic.invalid,
    maybe_ops_valid := false,
    maybe_ops := { source := 0, destination := 0, signing := 0 },
    parsed_baking := { is_endorsement := false, level := 0 },
    hash_only := false,
    final_hash := [] }

/-- Outcome of the baking build signing completion: a signature (after the
guard, or after the register-as-delegate prompt is confirmed), or one of the
thrown errors. -/
inductive sign_result
  | signature
  | promptDelegate
  | securityError
  | parseError
deriving DecidableEq, Repr

/-- Modelled from the spec: the two-argument guard_baking_authorized called
at apdu_sign.c:150 is not among the sources (the baking_auth.c provided has
an earlier signature); per the spec it requires session key equal to the
authorized baking key and the high-water-mark rule on the already-parsed
baking data, which is is_level_authorized from the sources. -/
def guard_baking_ok (nv : nvram_data) (g : sign_globals) : Bool :=
  bip32_path_with_curve_eq g.key (baking_key nv) &&
    is_level_authorized nv g.parsed_baking.level g.parsed_baking.is_endorsement

/-- apdu_sign.c:146-176 (baking build).  For BLOCK and BAKING_OP the guard
decides between signing and a security error.  For UNSAFE_OP an invalid
parse is a parse error; a valid self-delegation signed by the authorized key
reaches the register-as-delegate prompt (prompt_register_delegate is
noreturn, so the THROW(EXC_SECURITY) after it is unreachable on that path);
every other valid UNSAFE_OP throws the security error.  Remaining magic
bytes are parse errors. -/
def baking_sign_complete (nv : nvram_data) (g : sign_globals) : sign_result :=
  match g.magic_byte with
  | Magic.block =>
    if guard_baking_ok nv g then sign_result.signature
    else sign_result.securityError
  | Magic.bakingOp =>
    if guard_baking_ok nv g then sign_result.signature
    else sign_result.securityError
  | Magic.unsafeOp =>
    if !g.maybe_ops_valid then sign_result.parseError
    else if bip32_path_with_curve_eq g.key (baking_key nv) &&
        (g.maybe_ops.source == g.maybe_ops.signing) &&
        (g.maybe_ops.destination == g.maybe_ops.signing) then
      sign_result.promptDelegate
    else sign_result.securityError
  | _ => sign_result.parseError

/-- A session holding an UNSAFE_OP whose structured parse failed. -/
def g_unsafe_invalid : sign_globals :=
  { clear_data with magic_byte := Magic.unsafeOp, maybe_ops_valid := false }

/-- C3 counterexample: an UNSAFE_OP that does not lead to a signature —
here one whose structured parse is invalid — fails with ParseError, not
with the SecurityError the claim asserts for every non-self-delegation
UNSAFE_OP. -/
theorem unsafe_op_invalid_parse_not_security_error :
    baking_sign_complete nv_hwm100 g_unsafe_invalid = sign_result.parseError ∧
    ¬ baking_sign_complete nv_hwm100 g_unsafe_invalid =
        sign_result.securityError := by
  decide

/-- C3 amended: in the baking build an UNSAFE_OP reaches the
register-as-delegate prompt (the only path to a signature) exactly when the
parse is valid, the session key equals the authorized baking key, and
source, destination and signing identity coincide; a parse-valid UNSAFE_OP
failing that test throws SecurityError regardless of key, and an UNSAFE_OP
with an invalid parse throws ParseError. -/
theorem unsafe_op_self_delegation_only (nv : nvram_data) (g : sign_globals)
    (h : g.magic_byte = Magic.unsafeOp) :
    (baking_sign_complete nv g = sign_result.promptDelegate ↔
      (g.maybe_ops_valid = true ∧ g.key = baking_key nv ∧
        g.maybe_ops.source = g.maybe_ops.signing ∧
        g.maybe_ops.destination = g.maybe_ops.signing)) ∧
    (g.maybe_ops_valid = false →
      baking_sign_complete nv g = sign_result.parseError) ∧
    (g.maybe_ops_valid = true →
      ¬ (g.key = baking_key nv ∧
          g.maybe_ops.source = g.maybe_ops.signing ∧
          g.maybe_ops.destination = g.maybe_ops.signing) →
      baking_sign_complete nv g = sign_result.securityError) := by
  have hkey : (bip32_path_with_curve_eq g.key (baking_key nv) &&
      (g.maybe_ops.source == g.maybe_ops.signing) &&
      (g.maybe_ops.destination == g.maybe_ops.signing)) = true ↔
      (g.key = baking_key nv ∧ g.maybe_ops.source = g.maybe_ops.signing ∧
        g.maybe_ops.destination = g.maybe_ops.signing) := by
    simp only [bip32_path_with_curve_eq, Bool.and_eq_true,
      decide_eq_true_eq, beq_iff_eq, and_assoc]
  rcases Bool.eq_false_or_eq_true g.maybe_ops_valid with hv | hv
  · by_cases hc : (bip32_path_with_curve_eq g.key (baking_key nv) &&
        (g.maybe_ops.source == g.maybe_ops.signing) &&
        (g.maybe_ops.destination == g.maybe_ops.signing)) = true
    · have hres : baking_sign_complete nv g = sign_result.promptDelegate := by
        simp only [baking_sign_complete, h, hv, Bool.not_true]
        rw [if_neg (by decide : ¬ (false = true)), if_pos hc]
      refine ⟨⟨fun _ => ⟨hv, hkey.mp hc⟩, fun _ => hres⟩, ?_, ?_⟩
      · intro hf
        rw [hf] at hv
        exact absurd hv (by decide)
      · intro _ hnc
        exact absurd (hkey.mp hc) hnc
    · have hres : baking_sign_complete nv g = sign_result.securityError := by
        simp only [baking_sign_complete, h, hv, Bool.not_true]
        rw [if_neg (by decide : ¬ (false = true)), if_neg hc]
      refine ⟨⟨?_, ?_⟩, ?_, ?_⟩
      · intro hr
        rw [hres] at hr
        exact absurd hr (by decide)
      · intro hall
        exact absurd (hkey.mpr ⟨hall.2.1, hall.2.2.1, hall.2.2.2⟩) hc
      · intro hf
        rw [hf] at hv
        exact absurd hv (by decide)
      · intro _ _
        exact hres
  · have hres : baking_sign_complete nv g = sign_result.parseError := by
      simp only [baking_sign_complete, h, hv, Bool.not_false]
      rw [if_pos trivial]
    refine ⟨⟨?_, ?_⟩, ?_, ?_⟩
    · intro hr
      rw [hres] at hr
      exact absurd hr (by decide)
    · intro hall
      rw [hall.1] at hv
      exact absurd hv (by decide)
    · intro _
      exact hres
    · intro hf _
      rw [hf] at hv
      exact absurd hv (by decide)

/-- A parse-valid self-delegation session signed by the authorized key. -/
def g_self_delegation : sign_globals :=
  { clear_data with
    key := { derivation_type := 0, path := [44] },
    magic_byte := Magic.unsafeOp,
    maybe_ops_valid := true,
    maybe_ops := { source := 7, destination := 7, signing := 7 } }

/-- C3 amended, witness: the concrete self-delegation by the authorized key
reaches the register-as-delegate prompt. -/
theorem unsafe_op_self_delegation_only_witness :
    baking_sign_complete nv_hwm100 g_self_delegation =
      sign_result.promptDelegate :=
  (unsafe_op_self_delegation_only nv_hwm100 g_self_delegation rfl).1.mpr
    ⟨rfl, by decide, rfl, rfl⟩

/-- The operation tags named by is_operation_allowed, plus the
OPERATION_TAG_NONE used elsewhere in the sources as a representative of
every tag outside the allow-lists (the C switch sends all of them to the
default: return false). -/
inductive operation_tag
  | athensDelegation
  | athensReveal
  | babylonDelegation
  | babylonReveal
  | proposal
  | ballot
  | athensOrigination
  | athensTransaction
  | babylonOrigination
  | babylonTransaction
  | tagNone
deriving DecidableEq, Repr

/-- apdu_sign.c:93-109 with the BAKING_APP conditional made explicit: the
reveal and delegation tags are allowed in both builds; proposal, ballot,
origination and transaction tags only in the wallet build; everything else
in neither. -/
def is_operation_allowed (baking : Bool) (tag : operation_tag) : Bool :=
  match tag with
  | operation_tag.athensDelegation => true
  | operation_tag.athensReveal => true
  | operation_tag.babylonDelegation => true
  | operation_tag.babylonReveal => true
  | operation_tag.proposal => !baking
  | operation_tag.ballot => !baking
  | operation_tag.athensOrigination => !baking
  | operation_tag.athensTransaction => !baking
  | operation_tag.babylonOrigination => !baking
  | operation_tag.babylonTransaction => !baking
  | operation_tag.tagNone => false

/-- C9: the allow-list is exactly two-tiered — in the baking build precisely
the reveal and delegation tags pass, and in the wallet build precisely those
four plus proposal, ballot, origination and transaction. -/
theorem is_operation_allowed_two_tiered (tag : operation_tag) :
    (is_operation_allowed true tag = true ↔
      (tag = operation_tag.athensDelegation ∨
        tag = operation_tag.athensReveal ∨
        tag = operation_tag.babylonDelegation ∨
        tag = operation_tag.babylonReveal)) ∧
    (is_operation_allowed false tag = true ↔
      (tag = operation_tag.athensDelegation ∨
        tag = operation_tag.athensReveal ∨
        tag = operation_tag.babylonDelegation ∨
        tag = operation_tag.babylonReveal ∨
        tag = operation_tag.proposal ∨
        tag = operation_tag.ballot ∨
        tag = operation_tag.athensOrigination ∨
        tag = operation_tag.athensTransaction ∨
        tag = operation_tag.babylonOrigination ∨
        tag = operation_tag.babylonTransaction)) := by
  cases tag <;> simp [is_operation_allowed]

/-- The three signing instructions dispatched to handle_apdu
(apdu_sign.c:520-521; INS_SIGN_UNSAFE disables both parsing and hashing). -/
inductive Instruction
  | insSign
  | insSignUnsafe
  | insSignWithHash
deriving DecidableEq, Repr

/-- apdu_sign.c:521: enable_hashing = instruction != INS_SIGN_UNSAFE; line
522 sets enable_parsing to the same value. -/
def enable_hashing (ins : Instruction) : Bool :=
  match ins with
  | Instruction.insSignUnsafe => false
  | _ => true

/-- Maximum payload bytes per packet.  Modelled from the spec: MAX_APDU_SIZE
lives in a header not among the sources; the spec only requires bounded
packets and no theorem depends on the exact value. -/
def MAX_APDU_SIZE : Nat := 230

/-- Capacity of G.message_data.  Modelled from the spec: the array size is
declared in apdu_sign.h, not among the sources; the spec gives the reference
capacity 1024 bytes.  No theorem depends on the exact value. -/
def MESSAGE_DATA_CAP : Nat := 1024

/-- Modelled from the spec: read count big-endian 4-byte indices. -/
def read_bip32_words : Nat → List Nat → List Nat
  | 0, _ => []
  | n + 1, l => read_be32 l :: read_bip32_words n (l.drop 4)

/-- Modelled from the spec: the FIRST payload is one count byte followed by
count 4-byte big-endian path indices (read_bip32_path lives in paths.c,
which is not among the sources). -/
def read_bip32_path (payload : List Nat) : List Nat :=
  match payload with
  | [] => []
  | n :: rest => read_bip32_words n rest

/-- apdu_sign.c:502-518: in the baking build BLOCK, BAKING_OP and UNSAFE_OP
pass; in the wallet build only UNSAFE_OP; everything else (including
UNSAFE_OP2/UNSAFE_OP3) throws EXC_PARSE_ERROR, here none. -/
def get_magic_byte_or_throw (baking : Bool) (payload : List Nat) :
    Option Magic :=
  match get_magic_byte payload with
  | Magic.block => if baking then some Magic.block else none
  | Magic.bakingOp => if baking then some Magic.bakingOp else none
  | Magic.unsafeOp => some Magic.unsafeOp
  | _ => none

/-- Intermediate result of one processing phase: a new session state or a
thrown error. -/
inductive g_step
  | ok (g : sign_globals)
  | err (e : Err)
deriving DecidableEq, Repr

/-- The parsing block of handle_apdu (apdu_sign.c:554-574), with the
external parse_operations capability passed as an oracle.  In the baking
build only packet 1 may be parsed; a baking payload that fails
parse_baking_data throws; an UNSAFE_OP records the validity of the
structured parse.  In the wallet build later packets just invalidate the
parse result. -/
def parse_phase (baking : Bool) (ins : Instruction)
    (oracle : List Nat → bip32_path_with_curve → Option parsed_operation_group)
    (g : sign_globals) (payload : List Nat) : g_step :=
  if enable_hashing ins = false then g_step.ok g
  else if baking then
    if g.packet_index ≠ 1 then g_step.err Err.parseError
    else
      match get_magic_byte_or_throw true payload with
      | none => g_step.err Err.parseError
      | some m =>
        if m = Magic.unsafeOp then
          match oracle payload g.key with
          | some ops =>
            g_step.ok { g with magic_byte := m, maybe_ops_valid := true,
                               maybe_ops := ops }
          | none =>
            g_step.ok { g with magic_byte := m, maybe_ops_valid := false }
        else
          match parse_baking_data payload with
          | some b => g_step.ok { g with magic_byte := m, parsed_baking := b }
          | none => g_step.err Err.parseError
  else
    if g.packet_index = 1 then
      match get_magic_byte_or_throw false payload with
      | none => g_step.err Err.parseError
      | some m =>
        match oracle payload g.key with
        | some ops =>
          g_step.ok { g with magic_byte := m, maybe_ops_valid := true,
                             maybe_ops := ops }
        | none =>
          g_step.ok { g with magic_byte := m, maybe_ops_valid := false }
    else g_step.ok { g with maybe_ops_valid := false }

/-- apdu_sign.c:576-582: hash the previously accumulated buffer content at
the packet boundary (when hashing is enabled). -/
def hash_phase (ins : Instruction) (g : sign_globals) : sign_globals :=
  if enable_hashing ins then
    { g with
      message_data := (blake2b_incremental_hash g.message_data g.hash_state).1,
      hash_state := (blake2b_incremental_hash g.message_data g.hash_state).2 }
  else g

/-- apdu_sign.c:584-587: refuse the packet with EXC_PARSE_ERROR when the
accumulated length plus the packet size would exceed the buffer capacity;
otherwise append the packet bytes. -/
def append_phase (g : sign_globals) (payload : List Nat) : g_step :=
  if MESSAGE_DATA_CAP < g.message_data.length + payload.length then
    g_step.err Err.parseError
  else g_step.ok { g with message_data := g.message_data ++ payload }

/-- apdu_sign.c:589-601: on the last packet, hash the remaining buffer and
extract the final digest (when hashing is enabled). -/
def last_phase (ins : Instruction) (g : sign_globals) : sign_globals :=
  if enable_hashing ins then
    { g with
      message_data := (blake2b_incremental_hash g.message_data g.hash_state).1,
      hash_state := (blake2b_incremental_hash g.message_data g.hash_state).2,
      final_hash := blake2b_finish_hash g.message_data g.hash_state }
  else g

/-- Result of one handle_apdu call: an empty-success acknowledgement, the
completion hand-off of the last packet (to baking_sign_complete or
wallet_sign_complete, modelled separately), or a thrown error. -/
inductive apdu_result
  | ack (g : sign_globals)
  | complete (g : sign_globals)
  | err (e : Err)
deriving DecidableEq, Repr

/-- The NEXT/HASH_ONLY_NEXT path of handle_apdu (apdu_sign.c:542-611): a
still-empty session path throws EXC_WRONG_LENGTH_FOR_INS, a saturated packet
counter throws EXC_PARSE_ERROR, then the parse, boundary-hash, append and
last-packet phases run in order. -/
def handle_next_packet (baking : Bool) (ins : Instruction)
    (oracle : List Nat → bip32_path_with_curve → Option parsed_operation_group)
    (g : sign_globals) (last : Bool) (payload : List Nat) : apdu_result :=
  if g.key.path.length = 0 then apdu_result.err Err.wrongLength
  else if 255 ≤ g.packet_index then apdu_result.err Err.parseError
  else
    match parse_phase baking ins oracle
        { g with packet_index := g.packet_index + 1 } payload with
    | g_step.err e => apdu_result.err e
    | g_step.ok g2 =>
      match append_phase (hash_phase ins g2) payload with
      | g_step.err e => apdu_result.err e
      | g_step.ok g4 =>
        if last then apdu_result.complete (last_phase ins g4)
        else apdu_result.ack g4

/-- handle_apdu (apdu_sign.c:520-612): oversized payloads throw
EXC_WRONG_LENGTH_FOR_INS; P1_FIRST resets the session and stores the decoded
path and curve; P1_NEXT (and, wallet-only, P1_HASH_ONLY_NEXT, which sets
hash_only) run the packet pipeline; anything else throws EXC_WRONG_PARAM.
Bit 7 of p1 is the LAST marker. -/
def handle_apdu_step (baking : Bool) (ins : Instruction)
    (oracle : List Nat → bip32_path_with_curve → Option parsed_operation_group)
    (g : sign_globals) (p1 p2 : Nat) (payload : List Nat) : apdu_result :=
  if MAX_APDU_SIZE < payload.length then apdu_result.err Err.wrongLength
  else if p1 &&& 127 = 0 then
    apdu_result.ack { clear_data with
      key := { derivation_type := p2, path := read_bip32_path payload } }
  else if p1 &&& 127 = 1 ∨ (baking = false ∧ p1 &&& 127 = 3) then
    handle_next_packet baking ins oracle
      (if baking = false ∧ p1 &&& 127 = 3 then { g with hash_only := true }
       else g)
      (decide (0 < p1 &&& 128)) payload
  else apdu_result.err Err.wrongParam

/-- An external parse oracle that recognizes nothing; concrete runs below do
not depend on it. -/
def oracle_none :
    List Nat → bip32_path_with_curve → Option parsed_operation_group :=
  fun _ _ => none

/-- C4 counterexample: a NEXT packet on a fresh session (empty path, no
FIRST yet) fails with the wrong-length error, not with the ParseError the
claim asserts. -/
theorem next_before_first_wrong_length :
    handle_apdu_step false Instruction.insSignUnsafe oracle_none clear_data
        1 0 [] = apdu_result.err Err.wrongLength ∧
    ¬ handle_apdu_step false Instruction.insSignUnsafe oracle_none clear_data
        1 0 [] = apdu_result.err Err.parseError := by
  decide

/-- The session right after a FIRST packet carrying the one-index path 44. -/
def g_after_first : sign_globals :=
  { clear_data with key := { derivation_type := 0, path := [44] } }

/-- n consecutive NEXT packets with empty payload under INS_SIGN_UNSAFE. -/
def run_next_packets (g : sign_globals) : Nat → apdu_result
  | 0 => apdu_result.ack g
  | n + 1 =>
    match run_next_packets g n with
    | apdu_result.ack g2 =>
      handle_apdu_step false Instruction.insSignUnsafe oracle_none g2 1 0 []
    | r => r

set_option maxRecDepth 8000 in
/-- C4 amended: after a FIRST packet, 255 consecutive NEXT packets are
acknowledged (the counter reaching 255) and the 256th fails with ParseError:
the packet counter may not exceed 255. -/
theorem next_packet_counter_saturates :
    handle_apdu_step false Instruction.insSignUnsafe oracle_none clear_data
        0 0 [1, 0, 0, 0, 44] = apdu_result.ack g_after_first ∧
    run_next_packets g_after_first 255 =
      apdu_result.ack { g_after_first with packet_index := 255 } ∧
    run_next_packets g_after_first 256 = apdu_result.err Err.parseError := by
  decide

/-- The incremental hash never grows the pending buffer. -/
theorem blake2b_incremental_hash_fst_length :
    ∀ (n : Nat) (buf : List Nat) (st : blake2b_hash_state),
      buf.length ≤ n →
      (blake2b_incremental_hash buf st).1.length ≤ buf.length := by
  intro n
  induction n with
  | zero =>
    intro buf st hle
    rw [blake2b_incremental_hash.eq_def]
    have hnot : ¬ 128 < buf.length := by omega
    rw [dif_neg hnot]
  | succ n ih =>
    intro buf st hle
    rw [blake2b_incremental_hash.eq_def]
    by_cases h : 128 < buf.length
    · rw [dif_pos h]
      have hlen : (buf.drop 128).length ≤ n := by
        rw [List.length_drop]
        omega
      have hrec := ih (buf.drop 128)
        (b2b_update (conditional_init_hash_state st) (buf.take 128)) hlen
      have hd : (buf.drop 128).length ≤ buf.length := by
        rw [List.length_drop]
        omega
      exact Nat.le_trans hrec hd
    · rw [dif_neg h]

/-- An accepted append leaves the buffer within capacity. -/
theorem append_phase_ok_length (g : sign_globals) (payload : List Nat)
    (g4 : sign_globals) (h : append_phase g payload = g_step.ok g4) :
    g4.message_data.length ≤ MESSAGE_DATA_CAP := by
  unfold append_phase at h
  by_cases hc : MESSAGE_DATA_CAP < g.message_data.length + payload.length
  · rw [if_pos hc] at h
    exact absurd h (by simp)
  · rw [if_neg hc] at h
    injection h with h
    rw [← h]
    simp only [List.length_append]
    omega

/-- The last-packet phase never grows the buffer. -/
theorem last_phase_length_le (ins : Instruction) (g : sign_globals) :
    (last_phase ins g).message_data.length ≤ g.message_data.length := by
  unfold last_phase
  by_cases h : enable_hashing ins = true
  · rw [if_pos h]
    exact blake2b_incremental_hash_fst_length g.message_data.length
      g.message_data g.hash_state (Nat.le_refl _)
  · rw [if_neg h]


/-- C8: the session message buffer never exceeds its capacity — every packet
that handle_apdu accepts (with an acknowledgement or a completion) leaves the
buffer within MESSAGE_DATA_CAP — and a NEXT packet that passes framing and
parsing but whose bytes would push the accumulated length past the capacity
is refused with the fatal ParseError, the session state being discarded
before any packet byte is copied. -/
theorem message_buffer_bounded :
    (∀ (baking : Bool) (ins : Instruction)
        (oracle : List Nat → bip32_path_with_curve →
          Option parsed_operation_group)
        (g : sign_globals) (p1 p2 : Nat) (payload : List Nat)
        (g4 : sign_globals),
      (handle_apdu_step baking ins oracle g p1 p2 payload =
          apdu_result.ack g4 ∨
        handle_apdu_step baking ins oracle g p1 p2 payload =
          apdu_result.complete g4) →
      g4.message_data.length ≤ MESSAGE_DATA_CAP) ∧
    (∀ (baking : Bool) (ins : Instruction)
        (oracle : List Nat → bip32_path_with_curve →
          Option parsed_operation_group)
        (g : sign_globals) (p2 : Nat) (payload : List Nat)
        (g2 : sign_globals),
      payload.length ≤ MAX_APDU_SIZE →
      g.key.path.length ≠ 0 →
      g.packet_index < 255 →
      parse_phase baking ins oracle
          { g with packet_index := g.packet_index + 1 } payload =
        g_step.ok g2 →
      MESSAGE_DATA_CAP <
          (hash_phase ins g2).message_data.length + payload.length →
      handle_apdu_step baking ins oracle g 1 p2 payload =
        apdu_result.err Err.parseError) := by
  have hnext : ∀ (baking : Bool) (ins : Instruction)
      (oracle : List Nat → bip32_path_with_curve →
        Option parsed_operation_group)
      (g : sign_globals) (last : Bool) (payload : List Nat)
      (g4 : sign_globals),
      (handle_next_packet baking ins oracle g last payload =
          apdu_result.ack g4 ∨
        handle_next_packet baking ins oracle g last payload =
          apdu_result.complete g4) →
      g4.message_data.length ≤ MESSAGE_DATA_CAP := by
    intro baking ins oracle g last payload g4 hres
    unfold handle_next_packet at hres
    by_cases h1 : g.key.path.length = 0
    · rw [if_pos h1] at hres
      rcases hres with hres | hres <;> exact absurd hres (by simp)
    · rw [if_neg h1] at hres
      by_cases h2 : 255 ≤ g.packet_index
      · rw [if_pos h2] at hres
        rcases hres with hres | hres <;> exact absurd hres (by simp)
      · rw [if_neg h2] at hres
        rcases hp : parse_phase baking ins oracle
            { g with packet_index := g.packet_index + 1 } payload with g2 | e
        · rw [hp] at hres
          dsimp only at hres
          rcases ha : append_phase (hash_phase ins g2) payload with g5 | e
          · rw [ha] at hres
            dsimp only at hres
            have hlen := append_phase_ok_length (hash_phase ins g2) payload
              g5 ha
            by_cases hl : last = true
            · rw [hl] at hres
              simp only [if_true] at hres
              rcases hres with hres | hres
              · exact absurd hres (by simp)
              · have hg : last_phase ins g5 = g4 := by
                  injection hres
                rw [← hg]
                exact Nat.le_trans (last_phase_length_le ins g5) hlen
            · have hl2 : last = false := by
                rcases Bool.eq_false_or_eq_true last with hx | hx
                · exact absurd hx hl
                · exact hx
              rw [hl2] at hres
              simp only [Bool.false_eq_true, if_false] at hres
              rcases hres with hres | hres
              · have hg : g5 = g4 := by
                  injection hres
                rw [← hg]
                exact hlen
              · exact absurd hres (by simp)
          · rw [ha] at hres
            dsimp only at hres
            rcases hres with hres | hres <;> exact absurd hres (by simp)
        · rw [hp] at hres
          dsimp only at hres
          rcases hres with hres | hres <;> exact absurd hres (by simp)
  constructor
  · intro baking ins oracle g p1 p2 payload g4 hres
    unfold handle_apdu_step at hres
    by_cases hb : MAX_APDU_SIZE < payload.length
    · rw [if_pos hb] at hres
      rcases hres with hres | hres <;> exact absurd hres (by simp)
    · rw [if_neg hb] at hres
      by_cases hk0 : p1 &&& 127 = 0
      · rw [if_pos hk0] at hres
        rcases hres with hres | hres
        · have hg : g4.message_data.length = 0 := by
            injection hres with hx
            rw [← hx]
            rfl
          rw [hg]
          exact Nat.zero_le _
        · exact absurd hres (by simp)
      · rw [if_neg hk0] at hres
        by_cases hk1 : p1 &&& 127 = 1 ∨ (baking = false ∧ p1 &&& 127 = 3)
        · rw [if_pos hk1] at hres
          exact hnext baking ins oracle _ _ payload g4 hres
        · rw [if_neg hk1] at hres
          rcases hres with hres | hres <;> exact absurd hres (by simp)
  · intro baking ins oracle g p2 payload g2 hsize hpath hidx hp hcap
    have happ : append_phase (hash_phase ins g2) payload =
        g_step.err Err.parseError := by
      unfold append_phase
      rw [if_pos hcap]
    unfold handle_apdu_step
    rw [if_neg (by omega : ¬ MAX_APDU_SIZE < payload.length),
      if_neg (by decide : ¬ (1 : Nat) &&& 127 = 0),
      if_pos (Or.inl (by decide : (1 : Nat) &&& 127 = 1))]
    have hno3 : ¬ (baking = false ∧ (1 : Nat) &&& 127 = 3) := by
      intro hcontra
      exact absurd hcontra.2 (by decide)
    rw [if_neg hno3]
    unfold handle_next_packet
    rw [if_neg hpath, if_neg (by omega : ¬ 255 ≤ g.packet_index), hp]
    dsimp only
    rw [happ]

/-- A session whose buffer is exactly full. -/
def g_full_buffer : sign_globals :=
  { clear_data with
    key := { derivation_type := 0, path := [44] },
    message_data := List.replicate 1024 0 }

set_option maxRecDepth 8000 in
/-- C8 witness: the FIRST-packet state is within capacity, and a one-byte
NEXT packet on a full buffer under INS_SIGN_UNSAFE is refused with
ParseError. -/
theorem message_buffer_bounded_witness :
    g_after_first.message_data.length ≤ MESSAGE_DATA_CAP ∧
    handle_apdu_step false Instruction.insSignUnsafe oracle_none
        g_full_buffer 1 0 [0] = apdu_result.err Err.parseError :=
  ⟨message_buffer_bounded.1 false Instruction.insSignUnsafe oracle_none
      clear_data 0 0 [1, 0, 0, 0, 44] g_after_first (Or.inl (by decide)),
   message_buffer_bounded.2 false Instruction.insSignUnsafe oracle_none
      g_full_buffer 0 [0] { g_full_buffer with packet_index := 1 }
      (by decide) (by decide) (by decide) rfl (by decide)⟩
